import Mathlib

/-!
Verification of the trace-assembly and randomization core of the Miden zkVM
(`src/processor/src/trace/mod.rs`) and of its Rescue-style sponge permutation
(`src/src/utils/sponge.rs`), as a shallow embedding in Lean 4. -/

set_option maxRecDepth 1000000
set_option maxHeartbeats 2000000

namespace Sponge

/-- Modulus of the 128-bit base field `winterfell::math::fields::f128::BaseElement`
(2^128 - 45 * 2^40 + 1). -/
def P : Nat := 340282366920938463463374557953744961537

/-- Field of the sponge: `BaseElement` of the f128 winterfell field. -/
abbrev Fq := ZMod P

/-- Embedding of `SPONGE_WIDTH` (imported in `sponge.rs` as `STATE_WIDTH`). -/
def STATE_WIDTH : Nat := 4

/-- Embedding of `BASE_CYCLE_LENGTH` (imported in `sponge.rs` as `NUM_ROUNDS`). -/
def NUM_ROUNDS : Nat := 16

/-- Embedding of `const ALPHA: u128 = 3` from `sponge.rs`. -/
def ALPHA : Nat := 3

/-- Embedding of `const INV_ALPHA: u128` from `sponge.rs`. -/
def INV_ALPHA : Nat := 226854911280625642308916371969163307691

/-- A sponge state: a fixed-width (`STATE_WIDTH = 4`) vector of field elements,
embedding the `&mut [BaseElement]` slice that `apply_round` mutates. -/
@[ext]
structure SpongeState where
  s0 : Fq
  s1 : Fq
  s2 : Fq
  s3 : Fq
deriving DecidableEq

/-- The flat `MDS` constant array from `sponge.rs` (row-major, entry `i*STATE_WIDTH+j`).
Out-of-range indices (never used by the code) give 0. -/
def MDS : Nat → Fq
  | 0 => 315189521614069403867817270152032075784
  | 1 => 10737242274749505456268020883296531251
  | 2 => 164166492670388427786346110319108935134
  | 3 => 282318813916891806489021925524031494414
  | 4 => 339659984245804546554434478921876908973
  | 5 => 97319381058524916656000376979320858814
  | 6 => 141017807671871944240242749183803053011
  | 7 => 271669633517564511702965675947905678154
  | 8 => 330029911818464578106380298339390343164
  | 9 => 37351365266361901988170671462637236976
  | 10 => 260386862860725098262319886102680637202
  | 11 => 161805458319902660573511017706877187889
  | 12 => 220775330812333365987157544144955631442
  | 13 => 172992909845374020745323861886602514703
  | 14 => 8447293670850292346208742365584924315
  | 15 => 276315004099450287580088164954743181255
  | _ => 0

/-- The flat `INV_MDS` constant array from `sponge.rs` (row-major). -/
def INV_MDS : Nat → Fq
  | 0 => 212015899302823985314659753132599968692
  | 1 => 222079945358547787481366483464725880498
  | 2 => 313947036552775452548888741999726656951
  | 3 => 94528877516599685906969597450601957552
  | 4 => 201841258819571375352239737215387725848
  | 5 => 42276963631701875238524357392500799145
  | 6 => 332890116061360870847041499810748569092
  | 7 => 3939991425276748394854935956419873430
  | 8 => 239100689228321601709623770733501932352
  | 9 => 178946314809288623489527367841505752988
  | 10 => 270128331008291756180543638308504150653
  | 11 => 315661002876081483102676309387501623498
  | 12 => 298377528588644746682709801175581650901
  | 13 => 114666605273067789843953739274063213369
  | 14 => 279054651722812961169783459501878203576
  | 15 => 308067640269163823896854342618197051588
  | _ => 0

/-- The `ARK` round-constant table from `sponge.rs`:
`STATE_WIDTH * 2 = 8` rows of `NUM_ROUNDS = 16` constants each. -/
def ARK : List (List Fq) :=
  [[73742662193393629993182617210984534396,
    190338348930091047298074165559397264378,
    135862987622353414661673448620033990934,
    14395595548581550072136442264588359269,
    178527953570703982986577498890483203023,
    89333775516890774827962437297764936547,
    60517382118002481956993039132628798754,
    300207915911051460908298688414919921093,
    287288998844960276649854461883880913666,
    4363347423120340347647334422662129280,
    169061616865327291005064664270275836534,
    55063854082489962294956447144901184837,
    48405253030503584410290697712994785780,
    26236509279945457822369793146288866403,
    8168599451814692118441936734435571667,
    315851285839738308287329276161693313425],
   [170640173476284978302806154399958141555,
    225556280578098393163620719229418290860,
    43697512293048123577843997788308773455,
    334227022756371766478760448625337379424,
    188323096432976273265052369652285099186,
    23833044413239455428827669432473543240,
    258001239441974384951891541079242930440,
    219177966622498447376602481443936826442,
    294241649061853322876594266104693176711,
    179443458614881887600494128053111694648,
    171502007855719014010389694111716628578,
    122453723578185362799857252115182955415,
    97063282200318501142854934314343169049,
    154737674033120948700227987365296907637,
    118224404177203231307646344308524770691,
    67833038363599207475373040930824843019],
   [158538539401072639862099558319550076686,
    289278996656706117461857789813498821934,
    158907965876520949616863328303176330572,
    58496669788416466040038464653643977917,
    126000924558481152083098962591383883438,
    32424193637360906576442956294452323288,
    337725857612570850944445340416668827103,
    172066229584406173063202914726937339958,
    138628264101912804813977210615833233437,
    50018412546799023168899671792323407156,
    16989575615175240495557720305287640349,
    69216162599706897556278776240900218374,
    41491163124497803255407972080635378902,
    297928660776980173370496618733852490961,
    233141108584353453034002234415979233911,
    193135973972933518870828237886863798021],
   [2818165229115014774032882127170013258,
    11153792801390339798262783617007369172,
    138405289600908304802269329797084135857,
    249369722351358137898587699909312963803,
    263157893448998999306850171729945394432,
    43421407022492486112194101527865465264,
    323117003802246814764810890058143344905,
    267697496976874759865163284761384997437,
    116358578177298194933445426886059838431,
    339223760157195739332845857285008200423,
    185875552438512768131393810027777987752,
    228752352631998151610775212885524543283,
    96675618862527967726114378655626650641,
    253746202714926890236889780444552427226,
    61911644581679112386499312030413349074,
    196910153233132861881308509456401645140],
   [82429262549299942290847183493004485261,
    53265540956785335308970867946461681393,
    274633988293091071340356635555807179190,
    189653807408664613044858917026657980625,
    122001776241989922016768881111033630021,
    62033181748425106711292370817969454146,
    151495710594170316099539790651453416361,
    242872884766759335785324964049644229294,
    279904213525927510712810228623902377237,
    78065099645540746831460653583134588104,
    36224510031696203479366212612960872957,
    109862755442048596627938134642975399668,
    331958862978706756999748973740992156929,
    81691558114273932307586556761543100315,
    12234569840122312404615178877814773825,
    166002344081927954304873771936867289851],
   [326468515245013538774703881972225680443,
    209040028248304238735923683513240525194,
    234470815157983004947611441850027217492,
    311182552853825261047305944842224924215,
    25509259982013669682461356932775370545,
    77086595049850596660690999278719011720,
    7640791703119561504971867271087353186,
    170024582242541755392979256646565617273,
    153964862116746563988492365899737226989,
    37163237225742447359704121711857363416,
    108165142884901978856319583750672324489,
    69476260396969790693146402021744933499,
    45955200056324872841369110391855073949,
    261286087759526359216271155361018330507,
    321756280164272289841871040803703440350,
    334905318181122708043147970432770442813],
   [310538827479436149892724250590698914519,
    221096166077280180974764042888991644280,
    274604860873273636237081114376077113475,
    230609671293877243511889006223284127479,
    59235259390239124162891762278360245334,
    129877116445533126989528570413807277693,
    250107916917535224528378129994943394294,
    232074846252364869196809445831737773796,
    298530663250990395227144225232608384365,
    265168486075436613449458788630803272512,
    166545598284411242433605578379265360252,
    102835474498154050313290986853294842906,
    189445283838085809052254029811407633258,
    302719082300742526890675313445319567341,
    96037481352786813748421760769380383926,
    214406010671246827947835794343033790693],
   [230635877078223923040415038811686445073,
    293027053537479076557105009345927645442,
    118114082982223329826045602989947510129,
    185089342855265166563915858025522983409,
    300544292992993952360719000252205715076,
    284751400376525550861233017183497639371,
    62365388436267647533064120634464266870,
    243579355010018669877160932197352017974,
    93028746118909893246237533845189074002,
    161426242690584918941198733450953748769,
    208632865147351209340449219082125897333,
    185941035889835671403097747661105595079,
    182846621472767704751329603405195985261,
    162892536327655189685235410342890574896,
    101396399019525872501663112616210307683,
    191090374127295994022314014407997806335]]

/-- Entry at row `r`, column `c` of `ARK` (`ARK[r][c]` in the source). -/
def arkEntry (r c : Nat) : Fq := (ARK.getD r []).getD c 0

/-- Embedding of `add_constants(state, idx, offset)` from `sponge.rs`: adds
`ARK[offset + i][idx]` to state element `i`, for `i` in `0..STATE_WIDTH`. -/
def add_constants (st : SpongeState) (idx offset : Nat) : SpongeState :=
  ⟨st.s0 + arkEntry (offset + 0) idx,
   st.s1 + arkEntry (offset + 1) idx,
   st.s2 + arkEntry (offset + 2) idx,
   st.s3 + arkEntry (offset + 3) idx⟩

/-- Embedding of `apply_sbox` from `sponge.rs`: raise every state element to the power `ALPHA`. -/
def apply_sbox (st : SpongeState) : SpongeState :=
  ⟨st.s0 ^ ALPHA, st.s1 ^ ALPHA, st.s2 ^ ALPHA, st.s3 ^ ALPHA⟩

/-- Embedding of `apply_inv_sbox` from `sponge.rs`: raise every state element to `INV_ALPHA`. -/
def apply_inv_sbox (st : SpongeState) : SpongeState :=
  ⟨st.s0 ^ INV_ALPHA, st.s1 ^ INV_ALPHA, st.s2 ^ INV_ALPHA, st.s3 ^ INV_ALPHA⟩

/-- The matrix-vector product loop shared by `apply_mds` and `apply_inv_mds`:
`result[i] = sum_j m[i * STATE_WIDTH + j] * state[j]`. -/
def matMul (m : Nat → Fq) (st : SpongeState) : SpongeState :=
  ⟨m 0 * st.s0 + m 1 * st.s1 + m 2 * st.s2 + m 3 * st.s3,
   m 4 * st.s0 + m 5 * st.s1 + m 6 * st.s2 + m 7 * st.s3,
   m 8 * st.s0 + m 9 * st.s1 + m 10 * st.s2 + m 11 * st.s3,
   m 12 * st.s0 + m 13 * st.s1 + m 14 * st.s2 + m 15 * st.s3⟩

/-- Embedding of `apply_mds` from `sponge.rs`. -/
def apply_mds (st : SpongeState) : SpongeState := matMul MDS st

/-- Embedding of `apply_inv_mds` from `sponge.rs`. -/
def apply_inv_mds (st : SpongeState) : SpongeState := matMul INV_MDS st

/-- The mid-round injection of `apply_round`:
`state[0] += op_code; state[1] += op_value`. -/
def injectOps (op_code op_value : Fq) (st : SpongeState) : SpongeState :=
  ⟨st.s0 + op_code, st.s1 + op_value, st.s2, st.s3⟩

/-- Embedding of `apply_round(state, op_code, op_value, step)` from `sponge.rs`: one full round of
the modified Rescue permutation, with inputs injected mid-round. -/
def apply_round (st : SpongeState) (op_code op_value : Fq) (step : Nat) : SpongeState :=
  let ark_idx := step % NUM_ROUNDS
  let st := add_constants st ark_idx 0
  let st := apply_sbox st
  let st := apply_mds st
  let st := injectOps op_code op_value st
  let st := add_constants st ark_idx STATE_WIDTH
  let st := apply_inv_sbox st
  apply_mds st

/-- The round sequence exactly as the specification's words describe it (claim C4):
first-half constants selected by `step` mod the cycle length, forward S-box, MDS mix,
additive injection of the operation code into slot 0 and the operation value into
slot 1, second-half constants, inverse S-box, MDS mix again. -/
def roundSequenceSpec (st : SpongeState) (op_code op_value : Fq) (step : Nat) : SpongeState :=
  apply_mds
    (apply_inv_sbox
      (add_constants
        (injectOps op_code op_value
          (apply_mds
            (apply_sbox
              (add_constants st (step % NUM_ROUNDS) 0))))
        (step % NUM_ROUNDS) STATE_WIDTH))

end Sponge

namespace Sponge

/-- Fast binary modular exponentiation, used only to certify field facts:
computes `a ^ e % n` with fuel-bounded structural recursion so that the kernel
can evaluate it. -/
def powMod (fuel : Nat) (a e n : Nat) : Nat :=
  match fuel with
  | 0 => 1 % n
  | fuel + 1 =>
    if e = 0 then 1 % n
    else
      let h := powMod fuel ((a * a) % n) (e / 2) n
      if e % 2 = 1 then (h * a) % n else h

end Sponge

namespace VmTrace

/-- Embedding of `const NUM_RAND_ROWS: usize = 1` from `src/processor/src/trace/mod.rs`. -/
def NUM_RAND_ROWS : Nat := 1

/-- Embedding of `MIN_STACK_DEPTH`: the number of top-of-stack registers exposed by
`init_stack_state` and `last_stack_state` (the source doc comments call them
"the top 16 stack registers"). -/
def MIN_STACK_DEPTH : Nat := 16

/-- Rust's `usize::next_power_of_two` (the smallest power of two that is `>= n`,
with `0` mapped to `1`), embedded with fuel-bounded structural recursion. -/
def nextPow2Aux (fuel n : Nat) : Nat :=
  match fuel with
  | 0 => 1
  | fuel + 1 => if n ≤ 1 then 1 else 2 * nextPow2Aux fuel ((n + 1) / 2)

/-- Rust's `usize::next_power_of_two`. -/
def nextPowerOfTwo (n : Nat) : Nat := nextPow2Aux n n

section TraceModel

variable {F : Type} {σ : Type}

/-- A trace matrix in column-major order, embedding the `Vec<Vec<Felt>>` of columns
that `finalize_trace` assembles and `winterfell::Matrix` stores. -/
abbrev Cols (F : Type) := List (List F)

/-- Embedding of `Matrix::num_rows`: the length of the first column. -/
def numRows (m : Cols F) : Nat := (m.headD []).length

/-- The cell of column `j` at row `i` (`None` when out of range). -/
def cell (m : Cols F) (j i : Nat) : Option F := m[j]?.bind (fun col => col[i]?)

/-- Embedding of `Matrix::read_row_into`: the row buffer at row `i`, one entry per column. -/
def readRow (m : Cols F) (i : Nat) : List (Option F) := m.map (fun col => col[i]?)

/-- One iteration of the inner randomization loop
(`for column in trace.iter_mut() { column[i] = rng.draw().expect(..) }`):
draw one coin value per column, in order, and overwrite each column's row `i`.
`draw` is the random coin's fallible draw operation (external `vm_core` code,
kept abstract); `none` models the `expect` panic on draw failure. -/
def injectRow (draw : σ → Option (F × σ)) (i : Nat) :
    Cols F → σ → Option (Cols F × σ)
  | [], s => some ([], s)
  | c :: cs, s =>
    match draw s with
    | none => none
    | some (v, s1) =>
      match injectRow draw i cs s1 with
      | none => none
      | some (cs1, s2) => some (c.set i v :: cs1, s2)

/-- The outer randomization loop: rows `start, start+1, ..., start+k-1` in order,
threading the coin state. -/
def injectRows (draw : σ → Option (F × σ)) :
    Nat → Nat → Cols F → σ → Option (Cols F × σ)
  | _, 0, cols, s => some (cols, s)
  | i, k + 1, cols, s =>
    match injectRow draw i cols s with
    | none => none
    | some (cols1, s1) => injectRows draw (i + 1) k cols1 s1

/-- The randomization step `for i in len - NUM_RAND_ROWS..len { for column in .. }`
shared verbatim by `finalize_trace` (lines 310-314) and `build_aux_segment`
(lines 170-175) of `src/processor/src/trace/mod.rs`. -/
def injectRandomValues (draw : σ → Option (F × σ)) (len R : Nat) (cols : Cols F)
    (s : σ) : Option (Cols F × σ) :=
  injectRows draw (len - R) R cols s

/-- The coin state after `k` draws from `s` (`none` if some draw fails). -/
def stateN (draw : σ → Option (F × σ)) : Nat → σ → Option σ
  | 0, s => some s
  | k + 1, s => (draw s).bind (fun vs => stateN draw k vs.2)

/-- The value of draw number `k` (0-indexed) in the sequence of draws from `s`. -/
def drawVal (draw : σ → Option (F × σ)) (k : Nat) (s : σ) : Option F :=
  ((stateN draw k s).bind draw).map Prod.fst

/-- A `Process` as `finalize_trace` consumes it, via `process.to_components()`:
the step counter `clk` of the system component, the reported lengths of the five
partial traces, and for each component its `into_trace(trace_len, num_rand_rows)`
column-materialization operation. The components themselves live in other files
of the processor crate (not under `src/`); per the spec they are external
producers exposing a length and a column-materialization operation, so they are
kept abstract here. -/
structure Process (F : Type) where
  clk : Nat
  sysLen : Nat
  decLen : Nat
  stkLen : Nat
  rangeLen : Nat
  auxLen : Nat
  programHash : List Nat
  sysInto : Nat → Nat → Cols F
  decInto : Nat → Nat → Cols F
  stkInto : Nat → Nat → Cols F
  rangeInto : Nat → Nat → Cols F
  auxInto : Nat → Nat → Cols F

/-- The three `assert_eq!` checks of `finalize_trace` (lines 270-276): the
step-driven partial traces (system, decoder, operand stack) must all report
exactly `clk` rows; the first failing assertion aborts with its message. -/
def checkTraceLens (p : Process F) : Except String Unit :=
  if p.sysLen ≠ p.clk then Except.error "inconsistent system trace lengths"
  else if p.decLen ≠ p.clk then Except.error "inconsistent decoder trace length"
  else if p.stkLen ≠ p.clk then Except.error "inconsistent stack trace lengths"
  else Except.ok ()

/-- The trace-length computation of `finalize_trace` (lines 279-286):
the maximum of `clk` and the range-checker and auxiliary-table lengths, plus
`NUM_RAND_ROWS`, rounded up to the next power of two. -/
def resolveTraceLen (clk rangeLen auxLen : Nat) : Nat :=
  nextPowerOfTwo (max clk (max rangeLen auxLen) + NUM_RAND_ROWS)

/-- The column-concatenation step of `finalize_trace` (lines 294-307): every
producer materializes its columns at the resolved length, and the columns are
chained in the fixed order system, decoder, stack, range checker, auxiliary
table. -/
def assembleColumns (p : Process F) (trace_len : Nat) : Cols F :=
  p.sysInto trace_len NUM_RAND_ROWS ++ p.decInto trace_len NUM_RAND_ROWS
    ++ p.stkInto trace_len NUM_RAND_ROWS ++ p.rangeInto trace_len NUM_RAND_ROWS
    ++ p.auxInto trace_len NUM_RAND_ROWS

/-- Embedding of `finalize_trace(process, rng)` from `src/processor/src/trace/mod.rs`:
validate the step-driven lengths, resolve the trace length (aborting, via the
`assert!` at lines 287-292, when it is below the minimum trace length),
materialize and concatenate the five components' columns in fixed order, and
inject random values into the last `NUM_RAND_ROWS` rows.  `minTraceLen` stands
for the `vm_core::MIN_TRACE_LEN` constant (declared outside `src/`); errors
model panics. -/
def finalize_trace (draw : σ → Option (F × σ)) (minTraceLen : Nat) (p : Process F)
    (rng : σ) : Except String (Cols F) :=
  match checkTraceLens p with
  | Except.error e => Except.error e
  | Except.ok () =>
    if resolveTraceLen p.clk p.rangeLen p.auxLen < minTraceLen then
      Except.error "trace length must be at least the minimum trace length"
    else
      match injectRandomValues draw (resolveTraceLen p.clk p.rangeLen p.auxLen)
          NUM_RAND_ROWS (assembleColumns p (resolveTraceLen p.clk p.rangeLen p.auxLen))
          rng with
      | none => Except.error "failed to draw a random value"
      | some (cols, _) => Except.ok cols

/-- Embedding of `winterfell::TraceLayout` as the spec describes it: the main-segment width
and the widths and random-element counts of the auxiliary segments.
`TraceLayout` itself is external prover code; only this descriptor data matters
here. -/
structure TraceLayout where
  main_segment_width : Nat
  aux_segment_widths : List Nat
  aux_segment_rands : List Nat
deriving DecidableEq

/-- Embedding of `TraceLayout::new(main_width, aux_widths, aux_rands)`. -/
def TraceLayout.new (w : Nat) (aux rands : List Nat) : TraceLayout := ⟨w, aux, rands⟩

/-- The `ExecutionTrace` struct from `src/processor/src/trace/mod.rs`:
metadata bytes, layout descriptor, column-major main matrix and the binding
program-hash digest.  The auxiliary-trace hints are not represented because the
one operation consuming them (`range::build_aux_columns`) is modelled from the
spec with the hints abstracted away. -/
structure ExecutionTrace (F : Type) where
  meta : List Nat
  layout : TraceLayout
  main_trace : Cols F
  program_hash : List Nat
deriving DecidableEq

/-- Embedding of `Trace::length` for `ExecutionTrace`: `self.main_trace.num_rows()`. -/
def ExecutionTrace.length (t : ExecutionTrace F) : Nat := numRows t.main_trace

/-- Embedding of `ExecutionTrace::new(process)` (lines 57-73): seed a random coin from the
program hash, run `finalize_trace`, and package the result with the fixed
layout `TraceLayout::new(TRACE_WIDTH, [2], [1])` and empty metadata.
`newCoin` stands for `RandomCoin::new` and `traceWidth` for the
`vm_core::TRACE_WIDTH` constant, both declared outside `src/`. -/
def ExecutionTrace.new (draw : σ → Option (F × σ)) (newCoin : List Nat → σ)
    (traceWidth minTraceLen : Nat) (p : Process F) :
    Except String (ExecutionTrace F) :=
  match finalize_trace draw minTraceLen p (newCoin p.programHash) with
  | Except.error e => Except.error e
  | Except.ok cols =>
    Except.ok
      { meta := []
        layout := TraceLayout.new traceWidth [2] [1]
        main_trace := cols
        program_hash := p.programHash }

/-- Embedding of `Trace::read_main_frame(row_idx, frame)` (lines 180-185): the "current"
buffer is the row at `row_idx` and the "next" buffer is the row at
`(row_idx + 1) % self.length()`. -/
def read_main_frame (t : ExecutionTrace F) (row_idx : Nat) :
    List (Option F) × List (Option F) :=
  let next_row_idx := (row_idx + 1) % t.length
  (readRow t.main_trace row_idx, readRow t.main_trace next_row_idx)

/-- Modelled from the spec: `range::V_COL_IDX`, the index of the range checker's
claimed-value column inside the main trace.  The range module is not under
`src/`; the concrete index does not affect any property proved here. -/
def V_COL_IDX : Nat := 0

/-- Modelled from the spec: `range::build_aux_columns` (the range module is not
under `src/`).  Per spec section 4.3 it builds the running-product column of the
multiset-equality lookup argument over the range checker's value column: a
column of length `trace_len` whose entry at row `i` is the product of the first
`i` per-row factors, each factor a function of that row's range-checker value
and the random challenges.  The exact rational-function factor is not fixed by
the spec and is kept as the parameter `factor`; the auxiliary build hints are
absorbed into it. -/
def build_aux_columns [Monoid F] (factor : F → List F → F) (trace_len : Nat)
    (rand_elements : List F) (vcol : List F) : Cols F :=
  [(List.range trace_len).map
    (fun i => (((vcol.take i).map (fun v => factor v rand_elements)).prod))]

/-- Embedding of `Trace::build_aux_segment(aux_segments, rand_elements)` (lines 151-178):
return `none` when an auxiliary segment already exists; otherwise build the
range checker's running-product column(s), seed a fresh coin from the program
hash, inject random values into the last `NUM_RAND_ROWS` rows and return the
new segment.  Errors model the `expect` panic on a failed draw. -/
def build_aux_segment [Monoid F] (draw : σ → Option (F × σ))
    (newCoin : List Nat → σ) (factor : F → List F → F) (t : ExecutionTrace F)
    (aux_segments : List (Cols F)) (rand_elements : List F) :
    Except String (Option (Cols F)) :=
  if ¬ aux_segments.isEmpty then Except.ok none
  else
    match injectRandomValues draw t.length NUM_RAND_ROWS
        (build_aux_columns factor t.length rand_elements
          (t.main_trace.getD V_COL_IDX []))
        (newCoin t.program_hash) with
    | none => Except.error "failed to draw a random value"
    | some (cols, _) => Except.ok (some cols)

/-- Embedding of `ExecutionTrace::last_step` (lines 106-108): `self.length() - NUM_RAND_ROWS - 1`. -/
def last_step (t : ExecutionTrace F) : Nat := t.length - NUM_RAND_ROWS - 1

/-- Embedding of `ExecutionTrace::init_stack_state` (lines 84-90): the values of the
`MIN_STACK_DEPTH` stack columns (at offset `STACK_TRACE_OFFSET`, a `vm_core`
constant kept as the parameter `off`) at row `0`. -/
def init_stack_state (off : Nat) (t : ExecutionTrace F) : List (Option F) :=
  (List.range MIN_STACK_DEPTH).map (fun i => cell t.main_trace (i + off) 0)

/-- Embedding of `ExecutionTrace::last_stack_state` (lines 93-100): the values of the
`MIN_STACK_DEPTH` stack columns at row `last_step`. -/
def last_stack_state (off : Nat) (t : ExecutionTrace F) : List (Option F) :=
  (List.range MIN_STACK_DEPTH).map (fun i => cell t.main_trace (i + off) (last_step t))

end TraceModel

/-- A concrete never-failing coin over a `Nat` counter state, for evaluating the
model on closed inputs: each draw returns the counter and increments it. -/
def drawCount : Nat → Option (Nat × Nat) := fun s => some (s, s + 1)

/-- A concrete stand-in for `RandomCoin::new` over the `Nat` coin state. -/
def coin0 : List Nat → Nat := fun _ => 0

/-- A concrete producer returning one all-zero column of the requested length. -/
def oneZeroCol : Nat → Nat → Cols Nat := fun len _ => [List.replicate len 0]

/-- A concrete single-cycle process (`clk = 1`, every component of length 1,
each materializing one all-zero column). -/
def procA : Process Nat :=
  { clk := 1, sysLen := 1, decLen := 1, stkLen := 1, rangeLen := 1, auxLen := 1
    programHash := [7]
    sysInto := oneZeroCol, decInto := oneZeroCol, stkInto := oneZeroCol
    rangeInto := oneZeroCol, auxInto := oneZeroCol }

/-- A concrete process whose system component misreports its trace length. -/
def procBad : Process Nat := { procA with sysLen := 2 }

/-- A concrete assembled 2-row, 2-column trace over `Nat`. -/
def trA : ExecutionTrace Nat :=
  { meta := [], layout := TraceLayout.new 2 [2] [1]
    main_trace := [[10, 20], [30, 40]], program_hash := [7] }

/-- The trace that `ExecutionTrace.new drawCount coin0 5 2 procA` constructs. -/
def trB : ExecutionTrace Nat :=
  { meta := [], layout := TraceLayout.new 5 [2] [1]
    main_trace := [[0, 0], [0, 1], [0, 2], [0, 3], [0, 4]], program_hash := [7] }

end VmTrace

namespace VmTrace

/-- Correctness of the fuel-bounded embedding of `next_power_of_two`:
with enough fuel it returns a power of two, at least `n`, and minimal such. -/
theorem nextPow2Aux_spec : ∀ fuel n, n ≤ fuel →
    (∃ k, nextPow2Aux fuel n = 2 ^ k) ∧ n ≤ nextPow2Aux fuel n ∧
      ∀ k, n ≤ 2 ^ k → nextPow2Aux fuel n ≤ 2 ^ k := by
  intro fuel
  induction fuel with
  | zero =>
    intro n hn
    have hn0 : n = 0 := Nat.le_zero.mp hn
    subst hn0
    exact ⟨⟨0, rfl⟩, by simp [nextPow2Aux], fun k _ => by
      simpa [nextPow2Aux] using Nat.one_le_two_pow⟩
  | succ f ih =>
    intro n hn
    by_cases h1 : n ≤ 1
    · refine ⟨⟨0, by simp [nextPow2Aux, h1]⟩, by simp [nextPow2Aux, h1],
        fun k _ => by simpa [nextPow2Aux, h1] using Nat.one_le_two_pow⟩
    · have hm : (n + 1) / 2 ≤ f := by omega
      obtain ⟨⟨j, hj⟩, hle, hmin⟩ := ih ((n + 1) / 2) hm
      have hrec : nextPow2Aux (f + 1) n = 2 * nextPow2Aux f ((n + 1) / 2) := by
        simp [nextPow2Aux, h1]
      refine ⟨⟨j + 1, by rw [hrec, hj]; ring⟩, by rw [hrec]; omega, ?_⟩
      intro k hk
      rcases k with _ | k1
      · simp only [pow_zero] at hk; omega
      · have hks : (2 : Nat) ^ (k1 + 1) = 2 * 2 ^ k1 := by ring
        rw [hks] at hk
        have hm2 : (n + 1) / 2 ≤ 2 ^ k1 := by omega
        have hA := hmin k1 hm2
        rw [hrec, hks]
        omega

/-- The embedded `next_power_of_two` returns the least power of two that is at
least its argument. -/
theorem nextPowerOfTwo_spec (n : Nat) :
    (∃ k, nextPowerOfTwo n = 2 ^ k) ∧ n ≤ nextPowerOfTwo n ∧
      ∀ k, n ≤ 2 ^ k → nextPowerOfTwo n ≤ 2 ^ k :=
  nextPow2Aux_spec n n le_rfl

section TraceLemmas

variable {F : Type} {σ : Type}

/-- Composing draw sequences: the state after `m + n` draws is the state after
`n` draws from the state after `m` draws. -/
theorem stateN_add (draw : σ → Option (F × σ)) (m n : Nat) :
    ∀ s, stateN draw (m + n) s = (stateN draw m s).bind (stateN draw n) := by
  induction m with
  | zero => intro s; simp [stateN]
  | succ m ih =>
    intro s
    have hmn : m + 1 + n = (m + n) + 1 := by omega
    rw [hmn]
    simp only [stateN, Option.bind_assoc]
    cases draw s with
    | none => rfl
    | some vs => simpa using ih vs.2

/-- Shifting the draw counter through an intermediate state. -/
theorem drawVal_add (draw : σ → Option (F × σ)) (m : Nat) {s : σ} {s1 : σ}
    (h : stateN draw m s = some s1) (k : Nat) :
    drawVal draw (m + k) s = drawVal draw k s1 := by
  simp [drawVal, stateN_add, h]

/-- What one pass of the inner randomization loop does: it succeeds on a column
list exactly when the per-column draws succeed, leaves the coin advanced by one
draw per column, and overwrites row `i` of the `j`-th column with the value of
draw number `j`. -/
theorem injectRow_spec (draw : σ → Option (F × σ)) (i : Nat) :
    ∀ (cols : Cols F) (s : σ) (out : Cols F × σ),
      injectRow draw i cols s = some out →
      out.1.length = cols.length ∧
      stateN draw cols.length s = some out.2 ∧
      ∀ j, j < cols.length →
        ∃ v, drawVal draw j s = some v ∧
          out.1[j]? = (cols[j]?).map (fun col => col.set i v) := by
  intro cols
  induction cols with
  | nil =>
    intro s out h
    simp only [injectRow] at h
    cases h
    simp [stateN]
  | cons col cs ih =>
    intro s out h
    simp only [injectRow] at h
    cases hds : draw s with
    | none => simp only [hds] at h; cases h
    | some vs =>
      obtain ⟨v, s1⟩ := vs
      simp only [hds] at h
      cases hrest : injectRow draw i cs s1 with
      | none => simp only [hrest] at h; cases h
      | some out1 =>
        obtain ⟨cs1, s2⟩ := out1
        simp only [hrest] at h
        cases h
        obtain ⟨hlen, hst, hj⟩ := ih s1 (cs1, s2) hrest
        refine ⟨by simpa using hlen, ?_, ?_⟩
        · simpa [stateN, hds] using hst
        · intro j hjlt
          cases j with
          | zero =>
            exact ⟨v, by simp [drawVal, stateN, hds], by simp⟩
          | succ j1 =>
            obtain ⟨w, hw, hcol⟩ := hj j1 (by simpa using hjlt)
            refine ⟨w, ?_, by simpa using hcol⟩
            rw [← hw]
            simp [drawVal, stateN, hds]

/-- Cells at a row other than the one being set are unchanged by the inner loop. -/
theorem cell_map_set_ne {cols1 cols : Cols F} {j p i : Nat} {v : F}
    (hc : cols1[j]? = (cols[j]?).map (fun col => col.set p v)) (hpi : p ≠ i) :
    cell cols1 j i = cell cols j i := by
  unfold cell
  rw [hc]
  cases hx : cols[j]? with
  | none => rfl
  | some colj => simp [List.getElem?_set_ne hpi]

/-- What the outer randomization loop does (claim C9's content): rows processed
are `start .. start+k-1`; every cell outside those rows is unchanged, every
cell inside them is overwritten with the value of an independent draw (draw
number `(row - start) * width + column` of the coin sequence), and the coin
advances by one draw per cell. -/
theorem injectRows_spec (draw : σ → Option (F × σ)) (L : Nat) :
    ∀ (k start : Nat) (cols : Cols F) (s : σ) (out : Cols F × σ),
      (∀ col ∈ cols, col.length = L) →
      injectRows draw start k cols s = some out →
      out.1.length = cols.length ∧
      (∀ col ∈ out.1, col.length = L) ∧
      stateN draw (k * cols.length) s = some out.2 ∧
      ∀ j, j < cols.length →
        (∀ i2, i2 < start ∨ start + k ≤ i2 → cell out.1 j i2 = cell cols j i2) ∧
        ∀ i2, start ≤ i2 → i2 < start + k → i2 < L →
          ∃ v, drawVal draw ((i2 - start) * cols.length + j) s = some v ∧
            cell out.1 j i2 = some v := by
  intro k
  induction k with
  | zero =>
    intro start cols s out hlen h
    simp only [injectRows] at h
    cases h
    refine ⟨rfl, hlen, by simp [stateN], ?_⟩
    intro j _
    exact ⟨fun i2 _ => rfl, fun i2 h1 h2 _ => by omega⟩
  | succ k ih =>
    intro start cols s out hlen h
    simp only [injectRows] at h
    cases hrow : injectRow draw start cols s with
    | none => simp only [hrow] at h; cases h
    | some rowOut =>
      obtain ⟨cols1, s1⟩ := rowOut
      simp only [hrow] at h
      obtain ⟨hlen1, hst1, hcols1⟩ := injectRow_spec draw start cols s (cols1, s1) hrow
      have hw : cols1.length = cols.length := hlen1
      have hlenL1 : ∀ col ∈ cols1, col.length = L := by
        intro col hcol
        obtain ⟨j, hj⟩ := List.mem_iff_getElem?.mp hcol
        have hjlt : j < cols1.length := by
          by_contra hge
          rw [List.getElem?_eq_none (by omega)] at hj
          cases hj
        obtain ⟨v, _, hmap⟩ := hcols1 j (by omega)
        rw [hmap] at hj
        cases hx : cols[j]? with
        | none => rw [hx] at hj; cases hj
        | some colj =>
          rw [hx] at hj
          simp only [Option.map_some'] at hj
          cases hj
          rw [List.length_set]
          exact hlen colj (List.getElem?_mem hx)
      obtain ⟨hlenO, hlenLO, hstO, hframe⟩ := ih (start + 1) cols1 s1 out hlenL1 h
      refine ⟨by rw [hlenO, hw], hlenLO, ?_, ?_⟩
      · have hmul : (k + 1) * cols.length = cols.length + k * cols.length := by ring
        rw [hmul, stateN_add, hst1]
        simpa [hw] using hstO
      · intro j hj
        have hj1 : j < cols1.length := by omega
        obtain ⟨hfU, hfO⟩ := hframe j hj1
        constructor
        · intro i2 hi2
          have h1 : cell out.1 j i2 = cell cols1 j i2 := hfU i2 (by omega)
          obtain ⟨v, _, hmap⟩ := hcols1 j hj
          rw [h1, cell_map_set_ne hmap (by omega)]
        · intro i2 hge hlt hiL
          rcases Nat.eq_or_lt_of_le hge with heq | hgt
          · subst heq
            obtain ⟨v, hv, hmap⟩ := hcols1 j hj
            refine ⟨v, by simpa using hv, ?_⟩
            have h1 : cell out.1 j start = cell cols1 j start := hfU start (by omega)
            rw [h1]
            unfold cell
            rw [hmap]
            have hjsome : cols[j]? = some (cols[j]) := List.getElem?_eq_getElem hj
            rw [hjsome]
            simp only [Option.map_some', Option.some_bind]
            exact List.getElem?_set_eq_of_lt v
              (by rw [hlen (cols[j]) (List.getElem?_mem hjsome)]; exact hiL)
          · obtain ⟨v, hv, hcell⟩ := hfO i2 (by omega) (by omega) hiL
            refine ⟨v, ?_, hcell⟩
            rw [← hv, hw]
            have hsplit : (i2 - start) * cols.length + j
                = cols.length + ((i2 - (start + 1)) * cols.length + j) := by
              have h1 : i2 - start = (i2 - (start + 1)) + 1 := by omega
              rw [h1, add_mul, one_mul]
              ring
            rw [hsplit, drawVal_add draw cols.length hst1]

/-- The inner randomization loop succeeds when the coin never fails. -/
theorem injectRow_isSome (draw : σ → Option (F × σ))
    (hdraw : ∀ s, (draw s).isSome) (i : Nat) :
    ∀ (cols : Cols F) (s : σ), (injectRow draw i cols s).isSome := by
  intro cols
  induction cols with
  | nil => intro s; simp [injectRow]
  | cons col cs ih =>
    intro s
    simp only [injectRow]
    cases hds : draw s with
    | none => have hcontra := hdraw s; rw [hds] at hcontra; cases hcontra
    | some vs =>
      obtain ⟨v, s1⟩ := vs
      cases hrest : injectRow draw i cs s1 with
      | none => have hcontra := ih s1; rw [hrest] at hcontra; cases hcontra
      | some out1 => obtain ⟨cs1, s2⟩ := out1; simp [hrest]

/-- The outer randomization loop succeeds when the coin never fails. -/
theorem injectRows_isSome (draw : σ → Option (F × σ))
    (hdraw : ∀ s, (draw s).isSome) :
    ∀ (k start : Nat) (cols : Cols F) (s : σ),
      (injectRows draw start k cols s).isSome := by
  intro k
  induction k with
  | zero => intro start cols s; simp [injectRows]
  | succ k ih =>
    intro start cols s
    simp only [injectRows]
    cases hrow : injectRow draw start cols s with
    | none =>
      have hcontra := injectRow_isSome draw hdraw start cols s
      rw [hrow] at hcontra; cases hcontra
    | some rowOut => obtain ⟨cols1, s1⟩ := rowOut; exact ih (start + 1) cols1 s1

end TraceLemmas

end VmTrace

namespace Sponge

/-- Correctness of the fuel-bounded modular exponentiation. -/
theorem powMod_correct (n : Nat) : ∀ fuel e a, e < 2 ^ fuel →
    powMod fuel a e n = a ^ e % n := by
  intro fuel
  induction fuel with
  | zero =>
    intro e a he
    have he0 : e = 0 := by simpa using he
    subst he0
    simp [powMod]
  | succ f ih =>
    intro e a he
    by_cases h0 : e = 0
    · subst h0; simp [powMod]
    · have h2f : (2 : Nat) ^ (f + 1) = 2 * 2 ^ f := by ring
      rw [h2f] at he
      have hlt : e / 2 < 2 ^ f := by omega
      simp only [powMod, if_neg h0]
      rw [ih (e / 2) ((a * a) % n) hlt]
      have hx : ((a * a) % n) ^ (e / 2) % n = (a * a) ^ (e / 2) % n :=
        (Nat.pow_mod (a * a) (e / 2) n).symm
      have hsq : (a * a) ^ (e / 2) = a ^ (2 * (e / 2)) := by
        rw [pow_mul, pow_two]
      by_cases hpar : e % 2 = 1
      · have he2 : 2 * (e / 2) + 1 = e := by omega
        simp only [if_pos hpar]
        rw [hx, Nat.mod_mul_mod, hsq, ← pow_succ, he2]
      · have he2 : 2 * (e / 2) = e := by omega
        simp only [if_neg hpar]
        rw [hx, hsq, he2]

/-- Bridge from the computable `powMod` to exponentiation in `ZMod p`. -/
theorem pow_zmod_eq (p a e c : Nat) (he : e < 2 ^ 130)
    (hc : powMod 130 a e p = c) : ((a : ZMod p)) ^ e = ((c : Nat) : ZMod p) := by
  subst hc
  rw [powMod_correct p 130 e a he, ZMod.natCast_mod, Nat.cast_pow]

/-- A natural number below the modulus and different from 1 casts to something
different from 1 in `ZMod p`. -/
theorem natCast_zmod_ne_one (p c : Nat) (hp : 1 < p) (hc : c < p) (hne : c ≠ 1) :
    ((c : Nat) : ZMod p) ≠ 1 := by
  haveI : Fact (1 < p) := ⟨hp⟩
  intro h
  have hv := congrArg ZMod.val h
  rw [ZMod.val_natCast_of_lt hc, ZMod.val_one] at hv
  exact hne hv

/-- Certified non-triviality of a power in `ZMod p`, via `powMod`. -/
theorem pow_ne_one_of_powMod (p a e c : Nat) (hp : 1 < p) (he : e < 2 ^ 130)
    (hc : powMod 130 a e p = c) (hcp : c < p) (hne : c ≠ 1) :
    ((a : Nat) : ZMod p) ^ e ≠ 1 := by
  rw [pow_zmod_eq p a e c he hc]
  exact natCast_zmod_ne_one p c hp hcp hne

/-- Primality of 18053749339 (the largest prime factor of `P - 1`), by a Lucas
certificate with witness 3, using `18053749338 = 2 * 3 * 157 * 19165339`. -/
theorem prime_18053749339 : Nat.Prime 18053749339 := by
  have h157 : Nat.Prime 157 := by norm_num
  have h19165339 : Nat.Prime 19165339 := by norm_num
  apply lucas_primality 18053749339 ((3 : Nat) : ZMod 18053749339)
  · have h := pow_zmod_eq 18053749339 3 (18053749339 - 1) 1 (by decide) (by decide)
    rw [h, Nat.cast_one]
  · intro q hq hdvd
    have hfact : 18053749339 - 1 = 2 * (3 * (157 * 19165339)) := by norm_num
    rw [hfact] at hdvd
    rcases (Nat.Prime.dvd_mul hq).mp hdvd with h | h
    · rw [(Nat.prime_dvd_prime_iff_eq hq Nat.prime_two).mp h]
      exact pow_ne_one_of_powMod 18053749339 3 ((18053749339 - 1) / 2)
        18053749338 (by decide) (by decide) (by decide) (by decide) (by decide)
    rcases (Nat.Prime.dvd_mul hq).mp h with h | h
    · rw [(Nat.prime_dvd_prime_iff_eq hq Nat.prime_three).mp h]
      exact pow_ne_one_of_powMod 18053749339 3 ((18053749339 - 1) / 3)
        14274086744 (by decide) (by decide) (by decide) (by decide) (by decide)
    rcases (Nat.Prime.dvd_mul hq).mp h with h | h
    · rw [(Nat.prime_dvd_prime_iff_eq hq h157).mp h]
      exact pow_ne_one_of_powMod 18053749339 3 ((18053749339 - 1) / 157)
        15854488855 (by decide) (by decide) (by decide) (by decide) (by decide)
    · rw [(Nat.prime_dvd_prime_iff_eq hq h19165339).mp h]
      exact pow_ne_one_of_powMod 18053749339 3 ((18053749339 - 1) / 19165339)
        14285594972 (by decide) (by decide) (by decide) (by decide) (by decide)

/-- The f128 modulus `P` is prime, by a Lucas certificate with witness 3, using
`P - 1 = 2^40 * 29 * 181 * 286619 * 11394379 * 18053749339`. -/
theorem P_prime : Nat.Prime P := by
  have h29 : Nat.Prime 29 := by norm_num
  have h181 : Nat.Prime 181 := by norm_num
  have h286619 : Nat.Prime 286619 := by norm_num
  have h11394379 : Nat.Prime 11394379 := by norm_num
  apply lucas_primality P ((3 : Nat) : ZMod P)
  · have h := pow_zmod_eq P 3 (P - 1) 1 (by decide) (by decide)
    rw [h, Nat.cast_one]
  · intro q hq hdvd
    have hfact : P - 1 = 2 ^ 40 * (29 * (181 * (286619 * (11394379 * 18053749339)))) := by
      decide
    rw [hfact] at hdvd
    rcases (Nat.Prime.dvd_mul hq).mp hdvd with h | h
    · rw [(Nat.prime_dvd_prime_iff_eq hq Nat.prime_two).mp (hq.dvd_of_dvd_pow h)]
      exact pow_ne_one_of_powMod P 3 ((P - 1) / 2)
        340282366920938463463374557953744961536
        (by decide) (by decide) (by decide) (by decide) (by decide)
    rcases (Nat.Prime.dvd_mul hq).mp h with h | h
    · rw [(Nat.prime_dvd_prime_iff_eq hq h29).mp h]
      exact pow_ne_one_of_powMod P 3 ((P - 1) / 29)
        114792961311339977158635919681573159865
        (by decide) (by decide) (by decide) (by decide) (by decide)
    rcases (Nat.Prime.dvd_mul hq).mp h with h | h
    · rw [(Nat.prime_dvd_prime_iff_eq hq h181).mp h]
      exact pow_ne_one_of_powMod P 3 ((P - 1) / 181)
        95816247745561154808017863345204159341
        (by decide) (by decide) (by decide) (by decide) (by decide)
    rcases (Nat.Prime.dvd_mul hq).mp h with h | h
    · rw [(Nat.prime_dvd_prime_iff_eq hq h286619).mp h]
      exact pow_ne_one_of_powMod P 3 ((P - 1) / 286619)
        326132099507953641075081897713081089495
        (by decide) (by decide) (by decide) (by decide) (by decide)
    rcases (Nat.Prime.dvd_mul hq).mp h with h | h
    · rw [(Nat.prime_dvd_prime_iff_eq hq h11394379).mp h]
      exact pow_ne_one_of_powMod P 3 ((P - 1) / 11394379)
        182699971178315469257055275082973876544
        (by decide) (by decide) (by decide) (by decide) (by decide)
    · rw [(Nat.prime_dvd_prime_iff_eq hq prime_18053749339).mp h]
      exact pow_ne_one_of_powMod P 3 ((P - 1) / 18053749339)
        40664971873991271173740595132179155414
        (by decide) (by decide) (by decide) (by decide) (by decide)

/-- Fermat round trip for the S-box exponents: `ALPHA * INV_ALPHA = 2 * (P - 1) + 1`,
so the composite power map is the identity on the whole field. -/
theorem sbox_roundtrip (x : Fq) : (x ^ ALPHA) ^ INV_ALPHA = x := by
  haveI : Fact (Nat.Prime P) := ⟨P_prime⟩
  rw [← pow_mul]
  have he : ALPHA * INV_ALPHA = (P - 1) * 2 + 1 := by decide
  rw [he, pow_succ, pow_mul]
  rcases eq_or_ne x 0 with rfl | hx
  · simp
  · rw [ZMod.pow_card_sub_one_eq_one hx, one_pow, one_mul]

/-- C4: `apply_round` mutates the state by exactly this sequence: add the
first-half round constants selected by `step` modulo the round-constant cycle
length, apply the forward S-box to every element, apply the MDS mixing
transform, add the operation code to state slot 0 and the operation value to
state slot 1, add the second-half round constants, apply the inverse S-box, and
apply the MDS mixing transform again. -/
theorem apply_round_is_round_sequence (st : SpongeState) (op_code op_value : Fq)
    (step : Nat) :
    apply_round st op_code op_value step = roundSequenceSpec st op_code op_value step := rfl

/-- C5: `apply_mds` followed by `apply_inv_mds` returns the original state
vector; the compiled-in `INV_MDS` table is the exact inverse of the `MDS` table
over the prime field. -/
theorem mds_roundtrip (st : SpongeState) : apply_inv_mds (apply_mds st) = st := by
  obtain ⟨a, b, c, d⟩ := st
  have h00 : INV_MDS 0 * MDS 0 + INV_MDS 1 * MDS 4 + INV_MDS 2 * MDS 8 +
      INV_MDS 3 * MDS 12 = 1 := by decide
  have h01 : INV_MDS 0 * MDS 1 + INV_MDS 1 * MDS 5 + INV_MDS 2 * MDS 9 +
      INV_MDS 3 * MDS 13 = 0 := by decide
  have h02 : INV_MDS 0 * MDS 2 + INV_MDS 1 * MDS 6 + INV_MDS 2 * MDS 10 +
      INV_MDS 3 * MDS 14 = 0 := by decide
  have h03 : INV_MDS 0 * MDS 3 + INV_MDS 1 * MDS 7 + INV_MDS 2 * MDS 11 +
      INV_MDS 3 * MDS 15 = 0 := by decide
  have h10 : INV_MDS 4 * MDS 0 + INV_MDS 5 * MDS 4 + INV_MDS 6 * MDS 8 +
      INV_MDS 7 * MDS 12 = 0 := by decide
  have h11 : INV_MDS 4 * MDS 1 + INV_MDS 5 * MDS 5 + INV_MDS 6 * MDS 9 +
      INV_MDS 7 * MDS 13 = 1 := by decide
  have h12 : INV_MDS 4 * MDS 2 + INV_MDS 5 * MDS 6 + INV_MDS 6 * MDS 10 +
      INV_MDS 7 * MDS 14 = 0 := by decide
  have h13 : INV_MDS 4 * MDS 3 + INV_MDS 5 * MDS 7 + INV_MDS 6 * MDS 11 +
      INV_MDS 7 * MDS 15 = 0 := by decide
  have h20 : INV_MDS 8 * MDS 0 + INV_MDS 9 * MDS 4 + INV_MDS 10 * MDS 8 +
      INV_MDS 11 * MDS 12 = 0 := by decide
  have h21 : INV_MDS 8 * MDS 1 + INV_MDS 9 * MDS 5 + INV_MDS 10 * MDS 9 +
      INV_MDS 11 * MDS 13 = 0 := by decide
  have h22 : INV_MDS 8 * MDS 2 + INV_MDS 9 * MDS 6 + INV_MDS 10 * MDS 10 +
      INV_MDS 11 * MDS 14 = 1 := by decide
  have h23 : INV_MDS 8 * MDS 3 + INV_MDS 9 * MDS 7 + INV_MDS 10 * MDS 11 +
      INV_MDS 11 * MDS 15 = 0 := by decide
  have h30 : INV_MDS 12 * MDS 0 + INV_MDS 13 * MDS 4 + INV_MDS 14 * MDS 8 +
      INV_MDS 15 * MDS 12 = 0 := by decide
  have h31 : INV_MDS 12 * MDS 1 + INV_MDS 13 * MDS 5 + INV_MDS 14 * MDS 9 +
      INV_MDS 15 * MDS 13 = 0 := by decide
  have h32 : INV_MDS 12 * MDS 2 + INV_MDS 13 * MDS 6 + INV_MDS 14 * MDS 10 +
      INV_MDS 15 * MDS 14 = 0 := by decide
  have h33 : INV_MDS 12 * MDS 3 + INV_MDS 13 * MDS 7 + INV_MDS 14 * MDS 11 +
      INV_MDS 15 * MDS 15 = 1 := by decide
  simp only [apply_mds, apply_inv_mds, matMul, SpongeState.mk.injEq]
  refine ⟨?_, ?_, ?_, ?_⟩
  · linear_combination a * h00 + b * h01 + c * h02 + d * h03
  · linear_combination a * h10 + b * h11 + c * h12 + d * h13
  · linear_combination a * h20 + b * h21 + c * h22 + d * h23
  · linear_combination a * h30 + b * h31 + c * h32 + d * h33

/-- C6: the forward S-box is exponentiation by `ALPHA = 3`, and composing it
with the inverse S-box (exponentiation by `INV_ALPHA`) is the identity on every
field element and hence on every state vector. -/
theorem sbox_inverse_roundtrip :
    ALPHA = 3 ∧ (∀ x : Fq, (x ^ ALPHA) ^ INV_ALPHA = x) ∧
      ∀ st : SpongeState, apply_inv_sbox (apply_sbox st) = st := by
  refine ⟨rfl, sbox_roundtrip, ?_⟩
  intro st
  obtain ⟨a, b, c, d⟩ := st
  simp only [apply_sbox, apply_inv_sbox]
  exact SpongeState.ext (sbox_roundtrip a) (sbox_roundtrip b)
    (sbox_roundtrip c) (sbox_roundtrip d)

end Sponge

namespace VmTrace

/-- C2: `read_main_frame` fills the "current" buffer with row `i` and the
"next" buffer with row `(i + 1) mod length`; at the last row index the "next"
buffer wraps around to row 0, and at any earlier index it holds row `i + 1`. -/
theorem read_main_frame_wraparound {F : Type} (t : ExecutionTrace F) (i : Nat)
    (h : i < t.length) :
    read_main_frame t i =
      (readRow t.main_trace i,
        readRow t.main_trace (if i = t.length - 1 then 0 else i + 1)) := by
  unfold read_main_frame
  have hmod : (i + 1) % t.length = if i = t.length - 1 then 0 else i + 1 := by
    by_cases hL : i = t.length - 1
    · rw [if_pos hL, hL, Nat.sub_add_cancel (by omega), Nat.mod_self]
    · rw [if_neg hL]
      exact Nat.mod_eq_of_lt (by omega)
  rw [hmod]

/-- Witness for C2 at the last row of a concrete 2-row trace. -/
theorem read_main_frame_wraparound_witness :
    1 < trA.length ∧
      read_main_frame trA 1 =
        (readRow trA.main_trace 1,
          readRow trA.main_trace (if 1 = trA.length - 1 then 0 else 1 + 1)) :=
  ⟨by decide, read_main_frame_wraparound trA 1 (by decide)⟩

/-- C3: with a never-failing coin, `build_aux_segment` on an empty
existing-segment list returns a populated segment whose columns all have the
main trace's length, and on a non-empty existing-segment list returns
"no segment" without raising an error. -/
theorem build_aux_segment_once {F σ : Type} [Monoid F] (draw : σ → Option (F × σ))
    (newCoin : List Nat → σ) (factor : F → List F → F) (t : ExecutionTrace F)
    (segs : List (Cols F)) (rand : List F) (hdraw : ∀ s, (draw s).isSome) :
    (segs = [] → ∃ m, build_aux_segment draw newCoin factor t segs rand =
        Except.ok (some m) ∧ m ≠ [] ∧ ∀ col ∈ m, col.length = t.length) ∧
    (segs ≠ [] →
      build_aux_segment draw newCoin factor t segs rand = Except.ok none) := by
  constructor
  · rintro rfl
    have hsome := injectRows_isSome draw hdraw NUM_RAND_ROWS
      (t.length - NUM_RAND_ROWS)
      (build_aux_columns factor t.length rand (t.main_trace.getD V_COL_IDX []))
      (newCoin t.program_hash)
    cases hinj : injectRandomValues draw t.length NUM_RAND_ROWS
        (build_aux_columns factor t.length rand (t.main_trace.getD V_COL_IDX []))
        (newCoin t.program_hash) with
    | none =>
      unfold injectRandomValues at hinj
      rw [hinj] at hsome
      cases hsome
    | some out =>
      obtain ⟨cols1, s1⟩ := out
      have hcollen : ∀ col ∈ build_aux_columns factor t.length rand
          (t.main_trace.getD V_COL_IDX []), col.length = t.length := by
        intro col hcol
        simp only [build_aux_columns, List.mem_singleton] at hcol
        subst hcol
        simp
      obtain ⟨hlenO, hlenLO, _, _⟩ := injectRows_spec draw t.length NUM_RAND_ROWS
        (t.length - NUM_RAND_ROWS)
        (build_aux_columns factor t.length rand (t.main_trace.getD V_COL_IDX []))
        (newCoin t.program_hash) (cols1, s1) hcollen hinj
      refine ⟨cols1, ?_, ?_, hlenLO⟩
      · unfold build_aux_segment
        rw [if_neg (by simp), hinj]
      have h1 : cols1.length = 1 := by
        rw [hlenO]; simp [build_aux_columns]
      intro hnil
      rw [hnil] at h1
      cases h1
  · intro hne
    have hfalse : segs.isEmpty = false := by
      cases segs with
      | nil => exact absurd rfl hne
      | cons a l => rfl
    simp [build_aux_segment, hfalse]

/-- Witness for C3: both calls evaluated on a concrete trace (first with no
existing segments, then with one). -/
theorem build_aux_segment_once_witness :
    (∃ m, build_aux_segment drawCount coin0 (fun v _ => v) trA [] [] =
        Except.ok (some m) ∧ m ≠ [] ∧ ∀ col ∈ m, col.length = trA.length) ∧
    build_aux_segment drawCount coin0 (fun v _ => v) trA [[[0]]] [] =
      Except.ok none :=
  ⟨(build_aux_segment_once drawCount coin0 (fun v _ => v) trA [] []
      (fun _ => rfl)).1 rfl,
   (build_aux_segment_once drawCount coin0 (fun v _ => v) trA [[[0]]] []
      (fun _ => rfl)).2 (by simp)⟩

/-- C7: `finalize_trace` passes its consistency checks exactly when system,
decoder and operand-stack trace lengths all equal the cycle count `clk`; any
mismatch aborts with a hard failure naming the offending component, and no
assembled trace is returned. -/
theorem finalize_trace_length_checks {F σ : Type} (p : Process F)
    (draw : σ → Option (F × σ)) (minLen : Nat) (rng : σ) :
    (checkTraceLens p = Except.ok () ↔
      p.sysLen = p.clk ∧ p.decLen = p.clk ∧ p.stkLen = p.clk) ∧
    (p.sysLen ≠ p.clk →
      finalize_trace draw minLen p rng =
        Except.error "inconsistent system trace lengths") ∧
    (p.sysLen = p.clk → p.decLen ≠ p.clk →
      finalize_trace draw minLen p rng =
        Except.error "inconsistent decoder trace length") ∧
    (p.sysLen = p.clk → p.decLen = p.clk → p.stkLen ≠ p.clk →
      finalize_trace draw minLen p rng =
        Except.error "inconsistent stack trace lengths") ∧
    (¬ (p.sysLen = p.clk ∧ p.decLen = p.clk ∧ p.stkLen = p.clk) →
      ∀ cols, finalize_trace draw minLen p rng ≠ Except.ok cols) := by
  by_cases h1 : p.sysLen = p.clk <;> by_cases h2 : p.decLen = p.clk <;>
    by_cases h3 : p.stkLen = p.clk <;>
      simp [checkTraceLens, finalize_trace, h1, h2, h3]

/-- Witness for C7 at a concrete process whose system length misreports. -/
theorem finalize_trace_length_checks_witness :
    finalize_trace drawCount 2 procBad 0 =
      Except.error "inconsistent system trace lengths" :=
  (finalize_trace_length_checks procBad drawCount 2 0).2.1 (by decide)

/-- C1 (amended): the resolved trace length equals the smallest power of two
that is at least `max(clk, range length, aux length) + NUM_RAND_ROWS`; when
that power of two is below the configured minimum trace length,
`finalize_trace` does not substitute the minimum but aborts with an assertion
failure, so a successfully assembled trace is never shorter than the minimum
and all its columns have the resolved length. -/
theorem finalize_trace_resolved_length {F σ : Type} (p : Process F)
    (draw : σ → Option (F × σ)) (minLen : Nat) (rng : σ)
    (hprod : ∀ len, ∀ col ∈ assembleColumns p len, col.length = len) :
    (∃ k, resolveTraceLen p.clk p.rangeLen p.auxLen = 2 ^ k) ∧
    max p.clk (max p.rangeLen p.auxLen) + NUM_RAND_ROWS ≤
      resolveTraceLen p.clk p.rangeLen p.auxLen ∧
    (∀ k, max p.clk (max p.rangeLen p.auxLen) + NUM_RAND_ROWS ≤ 2 ^ k →
      resolveTraceLen p.clk p.rangeLen p.auxLen ≤ 2 ^ k) ∧
    (checkTraceLens p = Except.ok () →
      resolveTraceLen p.clk p.rangeLen p.auxLen < minLen →
      finalize_trace draw minLen p rng =
        Except.error "trace length must be at least the minimum trace length") ∧
    ∀ cols, finalize_trace draw minLen p rng = Except.ok cols →
      minLen ≤ resolveTraceLen p.clk p.rangeLen p.auxLen ∧
      ∀ col ∈ cols, col.length = resolveTraceLen p.clk p.rangeLen p.auxLen := by
  obtain ⟨h1, h2, h3⟩ :=
    nextPowerOfTwo_spec (max p.clk (max p.rangeLen p.auxLen) + NUM_RAND_ROWS)
  refine ⟨h1, h2, h3, ?_, ?_⟩
  · intro hchk hmin
    simp only [finalize_trace, hchk]
    rw [if_pos hmin]
  · intro cols hok
    unfold finalize_trace at hok
    cases hchk : checkTraceLens p with
    | error e => simp only [hchk] at hok; cases hok
    | ok u =>
      cases u
      simp only [hchk] at hok
      by_cases hmin : resolveTraceLen p.clk p.rangeLen p.auxLen < minLen
      · rw [if_pos hmin] at hok; cases hok
      · rw [if_neg hmin] at hok
        cases hinj : injectRandomValues draw (resolveTraceLen p.clk p.rangeLen p.auxLen)
            NUM_RAND_ROWS (assembleColumns p (resolveTraceLen p.clk p.rangeLen p.auxLen))
            rng with
        | none => simp only [hinj] at hok; cases hok
        | some out =>
          obtain ⟨cols1, s1⟩ := out
          simp only [hinj] at hok
          cases hok
          refine ⟨by omega, ?_⟩
          obtain ⟨_, hlenLO, _, _⟩ := injectRows_spec draw
            (resolveTraceLen p.clk p.rangeLen p.auxLen) NUM_RAND_ROWS
            (resolveTraceLen p.clk p.rangeLen p.auxLen - NUM_RAND_ROWS)
            (assembleColumns p (resolveTraceLen p.clk p.rangeLen p.auxLen)) rng
            (cols, s1) (hprod _) hinj
          exact fun col hcol => hlenLO col hcol

/-- Witness for C1 (amended) at a concrete process that assembles successfully. -/
theorem finalize_trace_resolved_length_witness :
    (∃ k, resolveTraceLen procA.clk procA.rangeLen procA.auxLen = 2 ^ k) ∧
    max procA.clk (max procA.rangeLen procA.auxLen) + NUM_RAND_ROWS ≤
      resolveTraceLen procA.clk procA.rangeLen procA.auxLen ∧
    (∀ k, max procA.clk (max procA.rangeLen procA.auxLen) + NUM_RAND_ROWS ≤ 2 ^ k →
      resolveTraceLen procA.clk procA.rangeLen procA.auxLen ≤ 2 ^ k) ∧
    (checkTraceLens procA = Except.ok () →
      resolveTraceLen procA.clk procA.rangeLen procA.auxLen < 2 →
      finalize_trace drawCount 2 procA 0 =
        Except.error "trace length must be at least the minimum trace length") ∧
    ∀ cols, finalize_trace drawCount 2 procA 0 = Except.ok cols →
      2 ≤ resolveTraceLen procA.clk procA.rangeLen procA.auxLen ∧
      ∀ col ∈ cols, col.length = resolveTraceLen procA.clk procA.rangeLen procA.auxLen :=
  finalize_trace_resolved_length procA drawCount 2 0 (by
    intro len col hcol
    simp only [assembleColumns, procA, oneZeroCol, List.mem_append,
      List.mem_singleton] at hcol
    rcases hcol with ((((h | h) | h) | h) | h) <;> subst h <;> simp)

/-- C1 counterexample: with the configured minimum trace length 64 (the value
of `vm_core::MIN_TRACE_LEN`) and a one-cycle process, the required power of
two is 2 < 64, yet `finalize_trace` does not use the minimum as the trace
length: it aborts with an assertion failure and returns no trace at all. -/
theorem finalize_trace_no_min_clamp :
    nextPowerOfTwo (max procA.clk (max procA.rangeLen procA.auxLen) + NUM_RAND_ROWS) < 64 ∧
    finalize_trace drawCount 64 procA 0 =
      Except.error "trace length must be at least the minimum trace length" ∧
    ∀ cols, finalize_trace drawCount 64 procA 0 ≠ Except.ok cols := by
  have herr : finalize_trace drawCount 64 procA 0 =
      Except.error "trace length must be at least the minimum trace length" := by
    rfl
  exact ⟨by decide, herr, fun cols h => by rw [herr] at h; cases h⟩

/-- C8 (amended): every successfully constructed execution trace declares a
layout with main-segment width `TRACE_WIDTH`, exactly one auxiliary segment,
and that auxiliary segment has width two (two columns), with one random
element. -/
theorem execution_trace_layout {F σ : Type} (draw : σ → Option (F × σ))
    (newCoin : List Nat → σ) (traceWidth minLen : Nat) (p : Process F)
    (t : ExecutionTrace F)
    (h : ExecutionTrace.new draw newCoin traceWidth minLen p = Except.ok t) :
    t.layout.main_segment_width = traceWidth ∧
    t.layout.aux_segment_widths.length = 1 ∧
    t.layout.aux_segment_widths = [2] ∧
    t.layout.aux_segment_rands = [1] := by
  unfold ExecutionTrace.new at h
  cases hfin : finalize_trace draw minLen p (newCoin p.programHash) with
  | error e => simp only [hfin] at h; cases h
  | ok cols =>
    simp only [hfin] at h
    cases h
    simp [TraceLayout.new]

/-- Witness for C8 (amended) at a concrete successful construction. -/
theorem execution_trace_layout_witness :
    trB.layout.main_segment_width = 5 ∧
    trB.layout.aux_segment_widths.length = 1 ∧
    trB.layout.aux_segment_widths = [2] ∧
    trB.layout.aux_segment_rands = [1] :=
  execution_trace_layout drawCount coin0 5 2 procA trB (by rfl)

/-- C8 counterexample: the layout of a concretely constructed trace declares an
auxiliary segment of two columns, not one. -/
theorem execution_trace_layout_one_column_refuted :
    Except.map (fun t => t.layout.aux_segment_widths)
        (ExecutionTrace.new drawCount coin0 5 2 procA) = Except.ok [2] ∧
      (2 : Nat) ≠ 1 := by
  exact ⟨by rfl, by decide⟩

/-- C9: the randomization step (the loop shared verbatim by `finalize_trace`
and `build_aux_segment`) leaves every cell outside the last `R` rows unchanged
and overwrites every cell of the last `R` rows with a freshly drawn coin value,
one independent draw per cell (draw number `(row - (len - R)) * width + column`
of the coin's sequence). -/
theorem randomization_frame {F σ : Type} (draw : σ → Option (F × σ)) (L R : Nat)
    (cols : Cols F) (s : σ) (out : Cols F × σ)
    (hlen : ∀ col ∈ cols, col.length = L) (hRL : R ≤ L)
    (h : injectRandomValues draw L R cols s = some out) :
    (∀ j i, j < cols.length → i < L - R → cell out.1 j i = cell cols j i) ∧
    (∀ j i, j < cols.length → L - R ≤ i → i < L →
      ∃ v, drawVal draw ((i - (L - R)) * cols.length + j) s = some v ∧
        cell out.1 j i = some v) := by
  obtain ⟨_, _, _, hframe⟩ := injectRows_spec draw L R (L - R) cols s out hlen h
  constructor
  · intro j i hj hi
    exact (hframe j hj).1 i (Or.inl hi)
  · intro j i hj hge hlt
    exact (hframe j hj).2 i hge (by omega) hlt

/-- Witness for C9 on a concrete 2-column, 2-row matrix with `R = 1`. -/
theorem randomization_frame_witness :
    (∀ j i, j < ([[1, 2], [3, 4]] : Cols Nat).length → i < 2 - 1 →
      cell ([[1, 10], [3, 11]] : Cols Nat) j i = cell [[1, 2], [3, 4]] j i) ∧
    (∀ j i, j < ([[1, 2], [3, 4]] : Cols Nat).length → 2 - 1 ≤ i → i < 2 →
      ∃ v, drawVal drawCount ((i - (2 - 1)) * ([[1, 2], [3, 4]] : Cols Nat).length + j) 10 =
          some v ∧
        cell ([[1, 10], [3, 11]] : Cols Nat) j i = some v) :=
  randomization_frame drawCount 2 1 [[1, 2], [3, 4]] 10 ([[1, 10], [3, 11]], 12)
    (by decide) (by decide) (by decide)

/-- C10: `init_stack_state` reads the `MIN_STACK_DEPTH` stack columns at row 0
and `last_stack_state` reads them at row `length - NUM_RAND_ROWS - 1` — a row
strictly before the randomized tail and different from the final matrix row —
and that row is untouched by the randomization step. -/
theorem stack_state_rows {F : Type} (off : Nat) (t : ExecutionTrace F) :
    (∀ i, i < MIN_STACK_DEPTH →
      (init_stack_state off t)[i]? = some (cell t.main_trace (i + off) 0)) ∧
    (∀ i, i < MIN_STACK_DEPTH →
      (last_stack_state off t)[i]? =
        some (cell t.main_trace (i + off) (t.length - NUM_RAND_ROWS - 1))) ∧
    (2 ≤ t.length →
      last_step t ≠ t.length - 1 ∧ last_step t < t.length - NUM_RAND_ROWS) ∧
    ∀ (σ : Type) (draw : σ → Option (F × σ)) (s : σ) (out : Cols F × σ) (j : Nat),
      (∀ col ∈ t.main_trace, col.length = t.length) → 2 ≤ t.length →
      j < t.main_trace.length →
      injectRandomValues draw t.length NUM_RAND_ROWS t.main_trace s = some out →
      cell out.1 j (last_step t) = cell t.main_trace j (last_step t) := by
  refine ⟨?_, ?_, ?_, ?_⟩
  · intro i hi
    simp [init_stack_state, List.getElem?_map, hi]
  · intro i hi
    simp [last_stack_state, last_step, List.getElem?_map, hi]
  · intro h2
    unfold last_step
    simp only [NUM_RAND_ROWS]
    omega
  · intro σ draw s out j hlen h2 hj hinj
    obtain ⟨_, _, _, hframe⟩ := injectRows_spec draw t.length NUM_RAND_ROWS
      (t.length - NUM_RAND_ROWS) t.main_trace s out hlen hinj
    refine (hframe j hj).1 (last_step t) (Or.inl ?_)
    unfold last_step
    simp only [NUM_RAND_ROWS]
    omega

/-- Witness for C10 on a concrete 2-row trace. -/
theorem stack_state_rows_witness :
    2 ≤ trA.length ∧
      (last_step trA ≠ trA.length - 1 ∧
        last_step trA < trA.length - NUM_RAND_ROWS) :=
  ⟨by decide, (stack_state_rows 0 trA).2.2.1 (by decide)⟩

end VmTrace
